import Mathlib

/-!
Verification of the swaparr download-queue monitor.

The development shallowly embeds the three source files of the repository:

- parser.rs: pure string conversion functions. Machine integers (u64) are
  modelled as Nat with an explicit reduction modulo 2 ^ 64 where the Rust
  release-profile arithmetic would wrap.
- queue.rs: the decision engine. The HashMap strike ledger is modelled as an
  association list with unique keys, HTTP side effects (the delete call) are
  modelled by returning the list of requested deletion URLs, and terminal
  rendering by returning the list of table rows.
- Functions living in external crates (humantime, bytesize) or in repository
  modules that are not part of the provided sources (system.rs, render.rs)
  are modelled from the specification; each such definition carries a doc
  comment saying so.

Floating-point rendering of the size column (a Rust f64 format) is not
modelled; no verified property mentions it.
-/

/-- The modulus of 64-bit unsigned wrapping arithmetic. -/
def u64Mod : Nat := 18446744073709551616

/-- Decimal rendering of an unsigned integer, digit by digit; models the Rust
Display instance for unsigned integers used by the format macros in the
source. The first argument is recursion fuel (any amount at least the digit
count gives the full rendering); the accumulator receives the digits from
least significant to most significant. -/
def natToStrAux : Nat → Nat → List Char → List Char
  | 0, _, acc => acc
  | fuel + 1, n, acc =>
    let acc1 := Nat.digitChar (n % 10) :: acc
    if n < 10 then acc1 else natToStrAux fuel (n / 10) acc1

/-- Decimal rendering of a Nat as a String. -/
def natToStr (n : Nat) : String :=
  String.mk (natToStrAux (n + 1) n [])

/-- Model of the Rust str split method applied to a character predicate, as
used by string_hms_to_ms in parser.rs: cut the character sequence at every
matching character, keeping empty groups, so that an empty input yields one
empty group. -/
def splitChars (p : Char → Bool) : List Char → List (List Char)
  | [] => [[]]
  | c :: rest =>
    let r := splitChars p rest
    if p c then [] :: r
    else
      match r with
      | [] => [[c]]
      | g :: gs => (c :: g) :: gs

/-- Model of u64 from_str as used by parse in parser.rs: an optional leading
plus sign, then one or more ASCII digits, rejecting values that overflow a
u64. Anything else is a parse error (modelled by none). -/
def parseU64 (s : String) : Option Nat :=
  let chars :=
    match s.data with
    | '+' :: rest => rest
    | cs => cs
  if chars = [] then none
  else if chars.all (fun c => c.isDigit) then
    let v := chars.foldl (fun acc c => acc * 10 + (c.toNat - 48)) 0
    if v < u64Mod then some v else none
  else none

/-- Embedding of string_hms_to_ms from parser.rs: split the input on colon
and period, require 3 or 4 fields, parse each field with a per-field default
of 0, and combine them with the u64 arithmetic of the source (wrapping in the
release profile, hence the reduction modulo 2 ^ 64). -/
def string_hms_to_ms (s : String) : Nat :=
  let parts := (splitChars (fun c => c == ':' || c == '.') s.data).map String.mk
  if parts.length < 3 then 0
  else
    match parts with
    | [h, m, sec] =>
      let hours := (parseU64 h).getD 0
      let minutes := (parseU64 m).getD 0
      let seconds := (parseU64 sec).getD 0
      ((0 * 24 + hours) * 3600 + minutes * 60 + seconds) * 1000 % u64Mod
    | [d, h, m, sec] =>
      let days := (parseU64 d).getD 0
      let hours := (parseU64 h).getD 0
      let minutes := (parseU64 m).getD 0
      let seconds := (parseU64 sec).getD 0
      ((days * 24 + hours) * 3600 + minutes * 60 + seconds) * 1000 % u64Mod
    | _ => 0

/-- Modelled from the spec: the byte-size parser of the external bytesize
crate, which is wrapped by string_bytesize_to_bytes in parser.rs and is not
part of the provided sources. Per the spec it accepts strings such as
"1 TB", "512 MB" and "1.5 GB" (a decimal amount, optional spaces, a unit)
and fails on anything else. SI units are powers of 1000, IEC units powers
of 1024. The returned byte count is the floor of amount times unit. -/
def parseByteSize (s : String) : Option Nat :=
  let cs := s.data
  let isNumChar : Char → Bool := fun c => c.isDigit || c == '.'
  let numPart := cs.takeWhile isNumChar
  let unitPart := (cs.dropWhile isNumChar).dropWhile (fun c => c == ' ')
  let mult : Option Nat :=
    match String.mk unitPart with
    | "" => some 1
    | "B" => some 1
    | "KB" => some 1000
    | "kB" => some 1000
    | "MB" => some 1000000
    | "GB" => some 1000000000
    | "TB" => some 1000000000000
    | "PB" => some 1000000000000000
    | "KiB" => some 1024
    | "MiB" => some 1048576
    | "GiB" => some 1073741824
    | "TiB" => some 1099511627776
    | "PiB" => some 1125899906842624
    | _ => none
  let intDigits := numPart.takeWhile (fun c => c.isDigit)
  let fracTail := numPart.dropWhile (fun c => c.isDigit)
  if intDigits = [] then none
  else
    let intVal := intDigits.foldl (fun acc c => acc * 10 + (c.toNat - 48)) 0
    match fracTail with
    | [] => mult.map (fun m => intVal * m)
    | '.' :: fds =>
      if fds.all (fun c => c.isDigit) then
        let fracVal := fds.foldl (fun acc c => acc * 10 + (c.toNat - 48)) 0
        mult.map (fun m => intVal * m + fracVal * m / 10 ^ fds.length)
      else none
    | _ => none

/-- Embedding of string_bytesize_to_bytes from parser.rs: parse with the
bytesize crate and fall back to 0 on any parse error; the stored value is a
u64. -/
def string_bytesize_to_bytes (s : String) : Nat :=
  match parseByteSize s with
  | some size => size % u64Mod
  | none => 0

/-- Space-separated concatenation of rendered duration components; models the
one-space separator the external humantime formatter writes between items. -/
def joinSpace : List String → String
  | [] => ""
  | [x] => x
  | x :: y :: rest => x ++ " " ++ joinSpace (y :: rest)

/-- Pluralised unit name for the long units of the duration formatter. -/
def pluralUnit (unit : String) (v : Nat) : String :=
  if 1 < v then unit ++ "s" else unit

/-- Modelled from the spec: the external humantime format_duration function
applied to a Duration built from milliseconds, as used by ms_to_eta_string in
parser.rs; the crate is not part of the provided sources. It renders a
coarse human-readable duration: a zero duration renders as the two-character
string with a zero and an s, otherwise the nonzero components among years,
months, days, hours, minutes, seconds, milliseconds, microseconds and
nanoseconds are rendered in order, space separated, each as the decimal value
followed by its unit name. -/
def formatDuration (ms : Nat) : String :=
  let secs := ms / 1000
  let nanos := ms % 1000 * 1000000
  if secs = 0 ∧ nanos = 0 then "0s"
  else
    let years := secs / 31557600
    let ydays := secs % 31557600
    let months := ydays / 2630016
    let mdays := ydays % 2630016
    let days := mdays / 86400
    let dsecs := mdays % 86400
    let hours := dsecs / 3600
    let minutes := dsecs % 3600 / 60
    let seconds := dsecs % 60
    let millis := nanos / 1000000
    let micros := nanos / 1000 % 1000
    let nanosec := nanos % 1000
    let comps : List (Nat × String) :=
      [(years, pluralUnit "year" years), (months, pluralUnit "month" months),
       (days, pluralUnit "day" days), (hours, "h"), (minutes, "m"),
       (seconds, "s"), (millis, "ms"), (micros, "us"), (nanosec, "ns")]
    joinSpace ((comps.filter (fun p => p.1 != 0)).map
      (fun p => natToStr p.1 ++ p.2))

/-- Embedding of ms_to_eta_string from parser.rs: format the milliseconds as
a duration and replace a rendered zero duration by the literal Infinite. -/
def ms_to_eta_string (ms : Nat) : String :=
  let eta := formatDuration ms
  if eta = "0s" then "Infinite" else eta

/-- The strike ledger of queue.rs, a HashMap from torrent id to strike
count, modelled as an association list with unique keys; lookup returns the
first matching entry and insertion replaces it in place. -/
def Ledger : Type := List (Nat × Nat)

/-- Model of HashMap get: the value stored for an id, if any. -/
def lget : Ledger → Nat → Option Nat
  | [], _ => none
  | p :: rest, id => if p.1 = id then some p.2 else lget rest id

/-- Model of HashMap insert: replace the value stored for an id, or append a
new entry when the id is absent. -/
def lput : Ledger → Nat → Nat → Ledger
  | [], id, v => [(id, v)]
  | p :: rest, id, v => if p.1 = id then (id, v) :: rest else p :: lput rest id v

/-- The conceptual strike count of an id: the stored value, or 0 when the id
has no entry yet (the spec treats a missing entry as count 0). -/
def strikesOf (l : Ledger) (id : Nat) : Nat :=
  (lget l id).getD 0

/-- The ledger after the entry-creation step at the top of the loop body of
process in queue.rs: insert a 0 entry for the id when it is absent, keep the
ledger unchanged when the entry exists. -/
def initOf (l : Ledger) (id : Nat) : Ledger :=
  match lget l id with
  | some _ => l
  | none => lput l id 0

/-- Embedding of the Torrent struct of queue.rs (the canonical Item of the
spec): id, display name, size in bytes and remaining time (eta) in
milliseconds, both u64 values modelled as Nat. -/
structure Torrent where
  id : Nat
  name : String
  size : Nat
  eta : Nat

/-- Modelled from the spec: the Envs configuration record of system.rs,
which is not part of the provided sources. queue.rs reads the four
threshold fields named by the spec (size and time thresholds as
human-readable strings, the strike cap as a u32, the aggressive flag as a
bool) plus the base URL and API key used to build the deletion request URL. -/
structure Envs where
  baseurl : String
  apikey : String
  time_threshold : String
  size_threshold : String
  strike_threshold : Nat
  aggresive_strikes : Bool

/-- Modelled from the spec: one row of the render.rs result table (render.rs
is not part of the provided sources); queue.rs fills the fields shown here.
The size column, produced in the source by floating-point formatting, is not
modelled and carries no verified property. -/
structure TableContent where
  strikes : String
  status : String
  name : String
  eta : String

/-- The URL of the deletion request built inline in queue.rs for a given
torrent id. -/
def deleteUrl (env : Envs) (id : Nat) : String :=
  env.baseurl ++ "/api/v3/queue/" ++ natToStr id ++ "?blocklist=true&apikey=" ++ env.apikey

/-- The table row pushed at the end of each loop iteration of process in
queue.rs: current over maximum strikes, status, the name truncated to 32
characters, and the rendered eta. -/
def mkRow (env : Envs) (strikes : Nat) (status : String) (torrent : Torrent) : TableContent :=
  { strikes := natToStr strikes ++ "/" ++ natToStr env.strike_threshold
    status := status
    name := String.mk (torrent.name.data.take 32)
    eta := ms_to_eta_string torrent.eta }

/-- Embedding of one iteration of the loop body of process in queue.rs.
Returns the updated strike ledger, the table row for this torrent, and the
deletion request URL when a delete call was issued. The source mutates the
local variables strikes, status and bypass in sequence; each reassignment is
modelled by a new binding, so the size bypass overwrites the Pending status
when both bypass rules match, exactly as in the source. -/
def processItem (env : Envs) (strikelist : Ledger) (torrent : Torrent) :
    Ledger × TableContent × Option String :=
  let id := torrent.id
  -- Add torrent id to strikes with default 0 if it does not exist yet.
  let strikes0 := strikesOf strikelist id
  let sl0 := initOf strikelist id
  -- Bypass rules, in source order; the status after both rules.
  let size_threshold_bytes := string_bytesize_to_bytes env.size_threshold
  let statusAfterPending :=
    if torrent.eta = 0 ∧ env.aggresive_strikes = false then "Pending" else "Normal"
  let status0 :=
    if size_threshold_bytes ≤ torrent.size then "Ignored" else statusAfterPending
  if (torrent.eta = 0 ∧ env.aggresive_strikes = false) ∨ size_threshold_bytes ≤ torrent.size then
    -- A bypass rule matched: the strike rules are skipped.
    (sl0, mkRow env strikes0 status0 torrent, none)
  else
    -- Strike rules.
    let time_threshold_ms := string_hms_to_ms env.time_threshold
    let p1 : Nat × Ledger × String :=
      if time_threshold_ms ≤ torrent.eta ∨ (torrent.eta = 0 ∧ env.aggresive_strikes = true) then
        if strikes0 < env.strike_threshold then
          (strikes0 + 1, lput sl0 id (strikes0 + 1), "Striked")
        else
          (strikes0, sl0, "Striked")
      else
        (strikes0, sl0, status0)
    let strikes1 := p1.1
    let sl1 := p1.2.1
    let status1 := p1.2.2
    if env.strike_threshold ≤ strikes1 then
      (sl1, mkRow env strikes1 "Removed" torrent, some (deleteUrl env id))
    else
      (sl1, mkRow env strikes1 status1 torrent, none)

/-- Embedding of process from queue.rs: fold the loop body over the queue
snapshot, threading the strike ledger; returns the final ledger, the table
rows in snapshot order and the deletion request URLs in issue order. -/
def process : List Torrent → Ledger → Envs → Ledger × List TableContent × List String
  | [], strikelist, _ => (strikelist, [], [])
  | torrent :: rest, strikelist, env =>
    let r := processItem env strikelist torrent
    let rr := process rest r.1 env
    (rr.1, r.2.1 :: rr.2.1,
      match r.2.2 with
      | some url => url :: rr.2.2
      | none => rr.2.2)

/-- The ledger after k consecutive runs of process on the same snapshot,
starting from a given ledger; models the caller keeping the strike map alive
across runs. -/
def nthLedger (env : Envs) (items : List Torrent) : Nat → Ledger → Ledger
  | 0, l => l
  | k + 1, l => (process items (nthLedger env items k l) env).1

/-- The full result of run k + 1 (0-indexed k) on an unchanged snapshot:
ledger, rows and deletion requests of that run. -/
def runResult (env : Envs) (items : List Torrent) (l : Ledger) (k : Nat) :
    Ledger × List TableContent × List String :=
  process items (nthLedger env items k l) env

theorem lget_lput_self (l : Ledger) (id v : Nat) : lget (lput l id v) id = some v := by
  induction l with
  | nil => simp [lput, lget]
  | cons p rest ih =>
    by_cases h : p.1 = id
    · simp [lput, lget, h]
    · simp [lput, lget, h, ih]

theorem lget_lput_ne (l : Ledger) (id v k : Nat) (hk : k ≠ id) :
    lget (lput l id v) k = lget l k := by
  induction l with
  | nil => simp [lput, lget, Ne.symm hk]
  | cons p rest ih =>
    by_cases h : p.1 = id
    · simp [lput, lget, h, Ne.symm hk]
    · by_cases h2 : p.1 = k <;> simp [lput, lget, h, h2, ih, hk]

theorem lget_initOf_self (l : Ledger) (id : Nat) :
    lget (initOf l id) id = some (strikesOf l id) := by
  unfold initOf strikesOf
  cases h : lget l id with
  | some s => simp [h]
  | none => simp [lget_lput_self]

theorem lget_initOf_ne (l : Ledger) (id k : Nat) (hk : k ≠ id) :
    lget (initOf l id) k = lget l k := by
  unfold initOf
  cases h : lget l id with
  | some s => rfl
  | none => exact lget_lput_ne l id 0 k hk

theorem strikesOf_initOf_self (l : Ledger) (id : Nat) :
    strikesOf (initOf l id) id = strikesOf l id := by
  unfold strikesOf
  rw [lget_initOf_self]
  rfl

theorem string_data_append (s t : String) : (s ++ t).data = s.data ++ t.data := rfl

theorem natToStrAux_head (fuel : Nat) : ∀ n acc, 0 < n → n < 10 ^ fuel →
    ∃ c rest, natToStrAux fuel n acc = c :: (rest ++ acc) ∧
      49 ≤ c.toNat ∧ c.toNat ≤ 57 := by
  induction fuel with
  | zero =>
    intro n acc h1 h2
    simp at h2
    omega
  | succ fuel ih =>
    intro n acc h1 h2
    simp only [natToStrAux]
    by_cases h10 : n < 10
    · rw [if_pos h10]
      refine ⟨Nat.digitChar (n % 10), [], rfl, ?_⟩
      have hn : n % 10 = n := Nat.mod_eq_of_lt h10
      rw [hn]
      interval_cases n <;> simp [Nat.digitChar]
    · rw [if_neg h10]
      have h1a : 0 < n / 10 := Nat.div_pos (by omega) (by norm_num)
      have h2a : n / 10 < 10 ^ fuel := by
        rw [Nat.div_lt_iff_lt_mul (by norm_num)]
        calc n < 10 ^ (fuel + 1) := h2
          _ = 10 ^ fuel * 10 := by ring
      obtain ⟨c, rest, heq, hc1, hc2⟩ := ih (n / 10) (Nat.digitChar (n % 10) :: acc) h1a h2a
      refine ⟨c, rest ++ [Nat.digitChar (n % 10)], ?_, hc1, hc2⟩
      rw [heq]
      simp

theorem natToStr_head (n : Nat) (h : 0 < n) :
    ∃ c rest, (natToStr n).data = c :: rest ∧ 49 ≤ c.toNat ∧ c.toNat ≤ 57 := by
  have hb : (1 : Nat) < 10 := by norm_num
  have hn : n < 10 ^ (n + 1) := by
    calc n < 10 ^ n := Nat.lt_pow_self hb n
      _ ≤ 10 ^ (n + 1) := Nat.pow_le_pow_right (by norm_num) (by omega)
  obtain ⟨c, rest, heq, hc1, hc2⟩ := natToStrAux_head (n + 1) n [] h hn
  exact ⟨c, rest ++ [], by simpa [natToStr] using congrArg String.data (congrArg String.mk heq), hc1, hc2⟩

theorem joinSpace_head (x : String) (xs : List String) (c : Char) (r : List Char)
    (h : x.data = c :: r) : ∃ r2, (joinSpace (x :: xs)).data = c :: r2 := by
  cases xs with
  | nil => exact ⟨r, h⟩
  | cons y ys =>
    refine ⟨r ++ (' ' :: (joinSpace (y :: ys)).data), ?_⟩
    show ((x ++ " ") ++ joinSpace (y :: ys)).data = _
    rw [string_data_append, string_data_append, h]
    simp

theorem filtered_head (comps : List (Nat × String))
    (hne : ∃ p ∈ comps, p.1 ≠ 0) :
    ∃ c r, (joinSpace ((comps.filter (fun p => p.1 != 0)).map
      (fun p => natToStr p.1 ++ p.2))).data = c :: r ∧
      49 ≤ c.toNat ∧ c.toNat ≤ 57 := by
  cases hL : comps.filter (fun p => p.1 != 0) with
  | nil =>
    exfalso
    obtain ⟨p, hp, hp0⟩ := hne
    have hmem : p ∈ comps.filter (fun p => p.1 != 0) := by
      apply List.mem_filter.mpr
      exact ⟨hp, by simpa using hp0⟩
    rw [hL] at hmem
    exact absurd hmem (List.not_mem_nil p)
  | cons q qs =>
    have hq : q.1 ≠ 0 := by
      have hmem : q ∈ comps.filter (fun p => p.1 != 0) := by
        rw [hL]; exact List.mem_cons_self q qs
      have := (List.mem_filter.mp hmem).2
      simpa using this
    obtain ⟨c, rest, hdata, hc1, hc2⟩ := natToStr_head q.1 (Nat.pos_of_ne_zero hq)
    have hx : (natToStr q.1 ++ q.2).data = c :: (rest ++ q.2.data) := by
      rw [string_data_append, hdata]; rfl
    simp only [List.map]
    obtain ⟨r2, hr2⟩ := joinSpace_head _ _ _ _ hx
    exact ⟨c, r2, hr2, hc1, hc2⟩

theorem formatDuration_head (ms : Nat) (h : 0 < ms) :
    ∃ c r, (formatDuration ms).data = c :: r ∧ 49 ≤ c.toNat ∧ c.toNat ≤ 57 := by
  have hcond : ¬(ms / 1000 = 0 ∧ ms % 1000 * 1000000 = 0) := by
    rintro ⟨h1, h2⟩
    omega
  simp only [formatDuration]
  rw [if_neg hcond]
  apply filtered_head
  simp only [List.mem_cons, List.not_mem_nil, or_false, Prod.exists]
  by_cases hm : ms % 1000 = 0
  · -- all sub-second components vanish, so a whole-second component is nonzero
    have hs : 0 < ms / 1000 := by omega
    by_cases hy : ms / 1000 / 31557600 ≠ 0
    · exact ⟨_, _, Or.inl rfl, hy⟩
    by_cases hmo : ms / 1000 % 31557600 / 2630016 ≠ 0
    · exact ⟨_, _, Or.inr (Or.inl rfl), hmo⟩
    by_cases hd : ms / 1000 % 31557600 % 2630016 / 86400 ≠ 0
    · exact ⟨_, _, Or.inr (Or.inr (Or.inl rfl)), hd⟩
    by_cases hh : ms / 1000 % 31557600 % 2630016 % 86400 / 3600 ≠ 0
    · exact ⟨_, _, Or.inr (Or.inr (Or.inr (Or.inl rfl))), hh⟩
    by_cases hmin : ms / 1000 % 31557600 % 2630016 % 86400 % 3600 / 60 ≠ 0
    · exact ⟨_, _, Or.inr (Or.inr (Or.inr (Or.inr (Or.inl rfl)))), hmin⟩
    have hsec : ms / 1000 % 31557600 % 2630016 % 86400 % 60 ≠ 0 := by omega
    exact ⟨_, _, Or.inr (Or.inr (Or.inr (Or.inr (Or.inr (Or.inl rfl))))), hsec⟩
  · have hmil : ms % 1000 * 1000000 / 1000000 ≠ 0 := by omega
    exact ⟨_, _, Or.inr (Or.inr (Or.inr (Or.inr (Or.inr (Or.inr (Or.inl rfl)))))), hmil⟩

theorem formatDuration_ne (ms : Nat) (h : 0 < ms) :
    formatDuration ms ≠ "0s" ∧ formatDuration ms ≠ "Infinite" ∧
      formatDuration ms ≠ "" := by
  obtain ⟨c, r, hd, h1, h2⟩ := formatDuration_head ms h
  refine ⟨?_, ?_, ?_⟩ <;> intro he <;> rw [he] at hd
  · have hd2 : ('0' : Char) :: ['s'] = c :: r := hd
    injection hd2 with hc _
    rw [← hc] at h1
    simp at h1
  · have hd2 : ('I' : Char) :: "nfinite".data = c :: r := hd
    injection hd2 with hc _
    rw [← hc] at h2
    simp at h2
  · simp at hd

theorem ms_to_eta_string_zero : ms_to_eta_string 0 = "Infinite" := rfl

theorem ms_to_eta_string_pos (ms : Nat) (h : 0 < ms) :
    ms_to_eta_string ms ≠ "Infinite" ∧ ms_to_eta_string ms ≠ "" := by
  obtain ⟨h0, hI, hE⟩ := formatDuration_ne ms h
  unfold ms_to_eta_string
  rw [if_neg h0]
  exact ⟨hI, hE⟩

theorem processItem_bypass (env : Envs) (l : Ledger) (t : Torrent)
    (h : (t.eta = 0 ∧ env.aggresive_strikes = false) ∨
      string_bytesize_to_bytes env.size_threshold ≤ t.size) :
    processItem env l t =
      (initOf l t.id,
       mkRow env (strikesOf l t.id)
         (if string_bytesize_to_bytes env.size_threshold ≤ t.size then "Ignored"
          else "Pending") t,
       none) := by
  simp only [processItem]
  rw [if_pos h]
  by_cases hig : string_bytesize_to_bytes env.size_threshold ≤ t.size
  · simp [hig]
  · have hp := h.resolve_right hig
    simp [hig, hp.1, hp.2]

theorem processItem_strike_inc (env : Envs) (l : Ledger) (t : Torrent)
    (hp : ¬(t.eta = 0 ∧ env.aggresive_strikes = false))
    (hsz : t.size < string_bytesize_to_bytes env.size_threshold)
    (helig : string_hms_to_ms env.time_threshold ≤ t.eta ∨
      (t.eta = 0 ∧ env.aggresive_strikes = true))
    (hlt : strikesOf l t.id < env.strike_threshold) :
    processItem env l t =
      (lput (initOf l t.id) t.id (strikesOf l t.id + 1),
       mkRow env (strikesOf l t.id + 1)
         (if env.strike_threshold ≤ strikesOf l t.id + 1 then "Removed"
          else "Striked") t,
       if env.strike_threshold ≤ strikesOf l t.id + 1 then
         some (deleteUrl env t.id)
       else none) := by
  simp only [processItem]
  rw [if_neg (not_or.mpr ⟨hp, Nat.not_le.mpr hsz⟩)]
  rw [if_pos helig, if_pos hlt]
  by_cases hT : env.strike_threshold ≤ strikesOf l t.id + 1 <;> simp [hT]

theorem processItem_strike_cap (env : Envs) (l : Ledger) (t : Torrent)
    (hp : ¬(t.eta = 0 ∧ env.aggresive_strikes = false))
    (hsz : t.size < string_bytesize_to_bytes env.size_threshold)
    (helig : string_hms_to_ms env.time_threshold ≤ t.eta ∨
      (t.eta = 0 ∧ env.aggresive_strikes = true))
    (hge : env.strike_threshold ≤ strikesOf l t.id) :
    processItem env l t =
      (initOf l t.id, mkRow env (strikesOf l t.id) "Removed" t,
       some (deleteUrl env t.id)) := by
  simp only [processItem]
  rw [if_neg (not_or.mpr ⟨hp, Nat.not_le.mpr hsz⟩)]
  rw [if_pos helig, if_neg (Nat.not_lt.mpr hge), if_pos hge]

theorem processItem_notelig (env : Envs) (l : Ledger) (t : Torrent)
    (hp : ¬(t.eta = 0 ∧ env.aggresive_strikes = false))
    (hsz : t.size < string_bytesize_to_bytes env.size_threshold)
    (hne : ¬(string_hms_to_ms env.time_threshold ≤ t.eta ∨
      (t.eta = 0 ∧ env.aggresive_strikes = true))) :
    processItem env l t =
      (initOf l t.id,
       mkRow env (strikesOf l t.id)
         (if env.strike_threshold ≤ strikesOf l t.id then "Removed"
          else "Normal") t,
       if env.strike_threshold ≤ strikesOf l t.id then
         some (deleteUrl env t.id)
       else none) := by
  simp only [processItem]
  rw [if_neg (not_or.mpr ⟨hp, Nat.not_le.mpr hsz⟩)]
  rw [if_neg hne]
  rw [if_neg (Nat.not_le.mpr hsz), if_neg hp]
  by_cases hT : env.strike_threshold ≤ strikesOf l t.id <;> simp [hT]

theorem processItem_fst_lget_ne (env : Envs) (l : Ledger) (t : Torrent)
    (k : Nat) (hk : k ≠ t.id) :
    lget (processItem env l t).1 k = lget l k := by
  by_cases hb : (t.eta = 0 ∧ env.aggresive_strikes = false) ∨
      string_bytesize_to_bytes env.size_threshold ≤ t.size
  · rw [processItem_bypass env l t hb]
    exact lget_initOf_ne l t.id k hk
  · push_neg at hb
    obtain ⟨hp, hsz⟩ := hb
    have hp2 : ¬(t.eta = 0 ∧ env.aggresive_strikes = false) := by
      intro hc; exact hp hc.1 hc.2
    have hsz2 : t.size < string_bytesize_to_bytes env.size_threshold :=
      Nat.lt_of_not_le (by intro hc; exact absurd hc (by omega))
    by_cases he : string_hms_to_ms env.time_threshold ≤ t.eta ∨
        (t.eta = 0 ∧ env.aggresive_strikes = true)
    · by_cases hlt : strikesOf l t.id < env.strike_threshold
      · rw [processItem_strike_inc env l t hp2 hsz2 he hlt]
        rw [lget_lput_ne _ _ _ _ hk]
        exact lget_initOf_ne l t.id k hk
      · rw [processItem_strike_cap env l t hp2 hsz2 he (Nat.le_of_not_lt hlt)]
        exact lget_initOf_ne l t.id k hk
    · rw [processItem_notelig env l t hp2 hsz2 he]
      exact lget_initOf_ne l t.id k hk

theorem processItem_fst_lget_self (env : Envs) (l : Ledger) (t : Torrent) :
    ∃ s, lget (processItem env l t).1 t.id = some s ∧
      strikesOf l t.id ≤ s ∧ s ≤ strikesOf l t.id + 1 := by
  by_cases hb : (t.eta = 0 ∧ env.aggresive_strikes = false) ∨
      string_bytesize_to_bytes env.size_threshold ≤ t.size
  · rw [processItem_bypass env l t hb]
    exact ⟨strikesOf l t.id, lget_initOf_self l t.id, le_refl _, by omega⟩
  · push_neg at hb
    obtain ⟨hp, hsz⟩ := hb
    have hp2 : ¬(t.eta = 0 ∧ env.aggresive_strikes = false) := by
      intro hc; exact hp hc.1 hc.2
    have hsz2 : t.size < string_bytesize_to_bytes env.size_threshold := by omega
    by_cases he : string_hms_to_ms env.time_threshold ≤ t.eta ∨
        (t.eta = 0 ∧ env.aggresive_strikes = true)
    · by_cases hlt : strikesOf l t.id < env.strike_threshold
      · rw [processItem_strike_inc env l t hp2 hsz2 he hlt]
        exact ⟨strikesOf l t.id + 1, lget_lput_self _ _ _, by omega, le_refl _⟩
      · rw [processItem_strike_cap env l t hp2 hsz2 he (Nat.le_of_not_lt hlt)]
        exact ⟨strikesOf l t.id, lget_initOf_self l t.id, le_refl _, by omega⟩
    · rw [processItem_notelig env l t hp2 hsz2 he]
      exact ⟨strikesOf l t.id, lget_initOf_self l t.id, le_refl _, by omega⟩

theorem process_single (env : Envs) (l : Ledger) (t : Torrent) :
    process [t] l env =
      ((processItem env l t).1, [(processItem env l t).2.1],
        match (processItem env l t).2.2 with
        | some url => [url]
        | none => []) := by
  simp [process]

theorem process_fst_lget_not_mem (env : Envs) (items : List Torrent)
    (l : Ledger) (id : Nat) (h : id ∉ items.map Torrent.id) :
    lget (process items l env).1 id = lget l id := by
  induction items generalizing l with
  | nil => rfl
  | cons t ts ih =>
    simp only [List.map, List.mem_cons, not_or] at h
    show lget (process (t :: ts) l env).1 id = lget l id
    simp only [process]
    rw [ih (processItem env l t).1 (by simpa using h.2)]
    exact processItem_fst_lget_ne env l t id h.1

/-- The configuration of the concrete scenario of the spec: 1 hour time
threshold, 50 GB size threshold, 3 strikes, aggressive mode off. -/
def scenarioEnv : Envs :=
  { baseurl := "http://localhost:7878", apikey := "secret",
    time_threshold := "01:00:00", size_threshold := "50 GB",
    strike_threshold := 3, aggresive_strikes := false }

/-- The item of the concrete scenario of the spec: id 1, 1 GB, 2 hours
remaining. -/
def scenarioItem : Torrent :=
  { id := 1, name := "Item", size := 1000000000, eta := 7200000 }

/-- An item whose size is above the 50 GB scenario threshold and whose
remaining time is zero. -/
def bigItem : Torrent :=
  { id := 2, name := "Seasonal Pack", size := 60000000000, eta := 0 }

/-- An item below both scenario thresholds with 1 minute remaining. -/
def quickItem : Torrent :=
  { id := 1, name := "Quick", size := 1000000000, eta := 60000 }

/-- C2: with a 1 hour time threshold, a 50 GB size threshold, a strike cap
of 3 and aggressive strikes off, running the single item of id 1, size 1 GB
and 2 hours remaining 4 times from an empty ledger gives strike counts
1, 2, 3, 3, statuses Striked, Striked, Removed, Removed, and a deletion
request on runs 3 and 4. -/
theorem c2_concrete_scenario :
    string_hms_to_ms scenarioEnv.time_threshold = 3600000 ∧
    string_bytesize_to_bytes scenarioEnv.size_threshold = 50000000000 ∧
    (List.range 4).map
      (fun k => strikesOf (nthLedger scenarioEnv [scenarioItem] (k + 1) []) 1) =
      [1, 2, 3, 3] ∧
    (List.range 4).map
      (fun k => (runResult scenarioEnv [scenarioItem] [] k).2.1.map TableContent.status) =
      [["Striked"], ["Striked"], ["Removed"], ["Removed"]] ∧
    (List.range 4).map
      (fun k => (runResult scenarioEnv [scenarioItem] [] k).2.2) =
      [[], [], [deleteUrl scenarioEnv 1], [deleteUrl scenarioEnv 1]] :=
  ⟨rfl, rfl, rfl, rfl, rfl⟩

/-- Modelled from the spec, as amended by the counterexample for C7: the
contract of the duration parser, stated independently of the source
structure. Split on colon and period; exactly 3 fields are read as
hours, minutes, seconds and exactly 4 as days, hours, minutes, seconds,
any other field count gives 0; a field that does not parse as a u64
contributes 0 by itself; the result is the spec formula
((days * 24 + hours) * 3600 + minutes * 60 + seconds) * 1000 in wrapping
64-bit arithmetic. -/
def hmsSpecAmended (s : String) : Nat :=
  let parts := (splitChars (fun c => c == ':' || c == '.') s.data).map String.mk
  let field := fun (i : Nat) => (parseU64 (parts.getD i "")).getD 0
  if parts.length = 3 then
    (field 0 * 3600 + field 1 * 60 + field 2) * 1000 % u64Mod
  else if parts.length = 4 then
    ((field 0 * 24 + field 1) * 3600 + field 2 * 60 + field 3) * 1000 % u64Mod
  else 0

/-- C7 (counterexample): the claim says a non-numeric field forces the
whole result to 0, but the source defaults only that field to 0; on the
input with fields 1, x, 2 the parser returns 3602000, not 0. -/
theorem c7_counterexample :
    string_hms_to_ms "1:x:2" = 3602000 ∧ string_hms_to_ms "1:x:2" ≠ 0 :=
  ⟨rfl, by decide⟩

/-- C7 (amended): the parser splits on colon and period and computes the
spec formula over the parsed fields, except that a non-numeric field
contributes 0 for that field alone rather than zeroing the result, a field
count above 4 also gives 0, and the arithmetic is wrapping 64-bit. -/
theorem c7_hms_characterization : ∀ s, string_hms_to_ms s = hmsSpecAmended s := by
  intro s
  simp only [string_hms_to_ms, hmsSpecAmended]
  generalize (splitChars (fun c => c == ':' || c == '.') s.data).map String.mk = parts
  match parts with
  | [] => rfl
  | [a] => rfl
  | [a, b] => rfl
  | [a, b, c] =>
    simp only [List.length, List.getD]
    norm_num
  | [a, b, c, d] =>
    simp only [List.length, List.getD]
    norm_num
  | a :: b :: c :: d :: e :: rest =>
    simp only [List.length]
    rw [if_neg (show ¬(rest.length + 1 + 1 + 1 + 1 + 1 < 3) by omega),
       if_neg (show ¬(rest.length + 1 + 1 + 1 + 1 + 1 = 3) by omega),
       if_neg (show ¬(rest.length + 1 + 1 + 1 + 1 + 1 = 4) by omega)]

/-- C8: the conversion functions are total and degrade to 0 on bad input:
the three concrete degradations of the spec hold, and for every input
string both functions return a value that is a valid u64 (the release
profile wraps the extreme arithmetic instead of failing), so no input makes
them fail outward. -/
theorem c8_total_degradation :
    string_hms_to_ms "garbage" = 0 ∧ string_hms_to_ms "1:2" = 0 ∧
    string_bytesize_to_bytes "not-a-size" = 0 ∧
    ∀ s, string_hms_to_ms s < u64Mod ∧ string_bytesize_to_bytes s < u64Mod := by
  have hM : 0 < u64Mod := by norm_num [u64Mod]
  refine ⟨rfl, rfl, rfl, fun s => ⟨?_, ?_⟩⟩
  · simp only [string_hms_to_ms]
    generalize (splitChars (fun c => c == ':' || c == '.') s.data).map String.mk = parts
    split
    · exact hM
    · match parts with
      | [] => exact hM
      | [a] => exact hM
      | [a, b] => exact hM
      | [a, b, c] => exact Nat.mod_lt _ hM
      | [a, b, c, d] => exact Nat.mod_lt _ hM
      | a :: b :: c :: d :: e :: rest => exact hM
  · simp only [string_bytesize_to_bytes]
    split
    · exact Nat.mod_lt _ hM
    · exact hM

/-- C9: the eta formatter returns the literal Infinite exactly on input 0;
every positive millisecond input renders to a non-empty string different
from Infinite. -/
theorem c9_eta_rendering :
    ms_to_eta_string 0 = "Infinite" ∧
    ∀ ms, 0 < ms → ms_to_eta_string ms ≠ "Infinite" ∧ ms_to_eta_string ms ≠ "" :=
  ⟨ms_to_eta_string_zero, ms_to_eta_string_pos⟩

theorem c9_eta_rendering_witness :
    (0 : Nat) < 7200000 ∧
    ms_to_eta_string 7200000 ≠ "Infinite" ∧ ms_to_eta_string 7200000 ≠ "" :=
  ⟨by decide, c9_eta_rendering.2 7200000 (by decide)⟩

/-- C1 (counterexample): an item with zero remaining time under
non-aggressive mode whose size is over the threshold gets status Ignored,
not Pending, because the size rule is evaluated after the Pending rule and
overwrites its status; the claimed first-match-wins order does not hold. -/
theorem c1_counterexample :
    bigItem.eta = 0 ∧ scenarioEnv.aggresive_strikes = false ∧
    string_bytesize_to_bytes scenarioEnv.size_threshold ≤ bigItem.size ∧
    (processItem scenarioEnv [] bigItem).2.1.status = "Ignored" ∧
    (processItem scenarioEnv [] bigItem).2.1.status ≠ "Pending" :=
  ⟨rfl, rfl, by decide, rfl, by decide⟩

/-- C1 (amended): for an item with zero remaining time under non-aggressive
mode the outcome is Pending when its size is below the size threshold and
Ignored when at or above it (the later size rule overwrites the Pending
status); in both cases the stored strike count is unchanged and no deletion
request is issued. -/
theorem c1_bypass_order (env : Envs) (l : Ledger) (t : Torrent)
    (h1 : t.eta = 0) (h2 : env.aggresive_strikes = false) :
    (processItem env l t).2.1.status =
      (if string_bytesize_to_bytes env.size_threshold ≤ t.size then "Ignored"
       else "Pending") ∧
    (processItem env l t).2.2 = none ∧
    strikesOf (processItem env l t).1 t.id = strikesOf l t.id := by
  rw [processItem_bypass env l t (Or.inl ⟨h1, h2⟩)]
  exact ⟨rfl, rfl, strikesOf_initOf_self l t.id⟩

theorem c1_bypass_order_witness :
    (processItem scenarioEnv [] bigItem).2.1.status =
      (if string_bytesize_to_bytes scenarioEnv.size_threshold ≤ bigItem.size
       then "Ignored" else "Pending") ∧
    (processItem scenarioEnv [] bigItem).2.2 = none ∧
    strikesOf (processItem scenarioEnv [] bigItem).1 bigItem.id =
      strikesOf [] bigItem.id :=
  c1_bypass_order scenarioEnv [] bigItem rfl rfl

/-- C10: when a bypass rule applies, the outcome of that run is Pending or
Ignored, never Removed, and no deletion request is issued, even when the
stored strike count is already at or above the strike threshold. -/
theorem c10_bypass_no_removal (env : Envs) (l : Ledger) (t : Torrent)
    (h : (t.eta = 0 ∧ env.aggresive_strikes = false) ∨
      string_bytesize_to_bytes env.size_threshold ≤ t.size) :
    (processItem env l t).2.2 = none ∧
    ((processItem env l t).2.1.status = "Pending" ∨
      (processItem env l t).2.1.status = "Ignored") ∧
    (processItem env l t).2.1.status ≠ "Removed" := by
  rw [processItem_bypass env l t h]
  refine ⟨rfl, ?_, ?_⟩
  · by_cases hig : string_bytesize_to_bytes env.size_threshold ≤ t.size
    · right; simp [mkRow, hig]
    · left; simp [mkRow, hig]
  · by_cases hig : string_bytesize_to_bytes env.size_threshold ≤ t.size <;>
      simp [mkRow, hig]

/-- An item below both scenario thresholds with zero remaining time. -/
def pendingItem : Torrent :=
  { id := 1, name := "Pending", size := 1000, eta := 0 }

theorem c10_bypass_no_removal_witness :
    (processItem scenarioEnv [(1, 5)] pendingItem).2.2 = none ∧
    ((processItem scenarioEnv [(1, 5)] pendingItem).2.1.status = "Pending" ∨
      (processItem scenarioEnv [(1, 5)] pendingItem).2.1.status = "Ignored") ∧
    (processItem scenarioEnv [(1, 5)] pendingItem).2.1.status ≠ "Removed" :=
  c10_bypass_no_removal scenarioEnv [(1, 5)] pendingItem (Or.inl ⟨rfl, rfl⟩)

/-- C4: an item whose size is at or above the size threshold never
accumulates strikes over any number of runs, its stored strike count is
unchanged, every run reports Ignored and no deletion request is ever
issued. -/
theorem c4_size_exemption (env : Envs) (t : Torrent) (l : Ledger)
    (hsz : string_bytesize_to_bytes env.size_threshold ≤ t.size) (k : Nat) :
    strikesOf (nthLedger env [t] k l) t.id = strikesOf l t.id ∧
    (runResult env [t] l k).2.1.map TableContent.status = ["Ignored"] ∧
    (runResult env [t] l k).2.2 = [] := by
  have hone : ∀ l2, strikesOf (process [t] l2 env).1 t.id = strikesOf l2 t.id ∧
      (process [t] l2 env).2.1.map TableContent.status = ["Ignored"] ∧
      (process [t] l2 env).2.2 = [] := by
    intro l2
    rw [process_single, processItem_bypass env l2 t (Or.inr hsz)]
    refine ⟨strikesOf_initOf_self l2 t.id, ?_, rfl⟩
    simp [mkRow, hsz]
  have hfix : ∀ j, strikesOf (nthLedger env [t] j l) t.id = strikesOf l t.id := by
    intro j
    induction j with
    | zero => rfl
    | succ j ih =>
      show strikesOf (process [t] (nthLedger env [t] j l) env).1 t.id = _
      rw [(hone _).1, ih]
  exact ⟨hfix k, (hone _).2.1, (hone _).2.2⟩

theorem c4_size_exemption_witness :
    strikesOf (nthLedger scenarioEnv [bigItem] 3 []) bigItem.id =
      strikesOf [] bigItem.id ∧
    (runResult scenarioEnv [bigItem] [] 3).2.1.map TableContent.status =
      ["Ignored"] ∧
    (runResult scenarioEnv [bigItem] [] 3).2.2 = [] :=
  c4_size_exemption scenarioEnv bigItem [] (by decide) 3

/-- C5 (counterexample): an item strictly between 0 and the time threshold
and below the size threshold, whose stored strike count already equals the
strike threshold, yields Removed on every run, not Normal: the removal
check runs even when the item was not eligible for a strike this run. -/
theorem c5_counterexample :
    0 < quickItem.eta ∧
    quickItem.eta < string_hms_to_ms scenarioEnv.time_threshold ∧
    quickItem.size < string_bytesize_to_bytes scenarioEnv.size_threshold ∧
    (process [quickItem] [(1, 3)] scenarioEnv).2.1.map TableContent.status =
      ["Removed"] ∧
    (process [quickItem] [(1, 3)] scenarioEnv).2.1.map TableContent.status ≠
      ["Normal"] :=
  ⟨by decide, by decide, by decide, rfl, by decide⟩

/-- C5 (amended): for an item with remaining time strictly between 0 and
the time threshold and size below the size threshold, provided the stored
strike count of its id exists and is below the strike threshold, every run
yields Normal, issues no deletion and leaves the ledger exactly unchanged;
without that proviso a stored count at or above the threshold yields
Removed instead. -/
theorem c5_idempotent_normal (env : Envs) (t : Torrent) (l : Ledger) (s : Nat)
    (h1 : 0 < t.eta) (h2 : t.eta < string_hms_to_ms env.time_threshold)
    (h3 : t.size < string_bytesize_to_bytes env.size_threshold)
    (h4 : lget l t.id = some s) (h5 : s < env.strike_threshold) (k : Nat) :
    nthLedger env [t] k l = l ∧
    (runResult env [t] l k).2.1.map TableContent.status = ["Normal"] ∧
    (runResult env [t] l k).2.2 = [] := by
  have hp2 : ¬(t.eta = 0 ∧ env.aggresive_strikes = false) := by
    rintro ⟨he, _⟩; omega
  have hne : ¬(string_hms_to_ms env.time_threshold ≤ t.eta ∨
      (t.eta = 0 ∧ env.aggresive_strikes = true)) := by
    rintro (hc | ⟨he, _⟩) <;> omega
  have hso : strikesOf l t.id = s := by unfold strikesOf; rw [h4]; rfl
  have hio : initOf l t.id = l := by unfold initOf; rw [h4]
  have hT : ¬(env.strike_threshold ≤ strikesOf l t.id) := by omega
  have hfix : ∀ j, nthLedger env [t] j l = l := by
    intro j
    induction j with
    | zero => rfl
    | succ j ih =>
      show (process [t] (nthLedger env [t] j l) env).1 = l
      rw [ih, process_single, processItem_notelig env l t hp2 h3 hne]
      simp [hio]
  refine ⟨hfix k, ?_, ?_⟩ <;>
    · show _ = _
      unfold runResult
      rw [hfix k, process_single, processItem_notelig env l t hp2 h3 hne]
      simp [mkRow, hT]

theorem c5_idempotent_normal_witness :
    nthLedger scenarioEnv [quickItem] 2 [(1, 0)] = [(1, 0)] ∧
    (runResult scenarioEnv [quickItem] [(1, 0)] 2).2.1.map TableContent.status =
      ["Normal"] ∧
    (runResult scenarioEnv [quickItem] [(1, 0)] 2).2.2 = [] :=
  c5_idempotent_normal scenarioEnv quickItem [(1, 0)] 0 (by decide) (by decide)
    (by decide) rfl (by decide) 2

/-- C3 (counterexample): in the concrete scenario of the spec, the item is
strike-eligible on all 4 runs and Removed is emitted twice (runs 3 and 4),
not exactly once as the claim states: once the count reaches the threshold,
Removed recurs on every later run. -/
theorem c3_counterexample :
    ((List.range 4).map
      (fun k => (runResult scenarioEnv [scenarioItem] [] k).2.1.map
        TableContent.status)).count ["Removed"] = 2 ∧ (2 : Nat) ≠ 1 :=
  ⟨rfl, by decide⟩

/-- C3 (amended): for an item that is strike-eligible and not bypassed on
every run, starting from an id absent from the ledger, the strike count
after run N equals min N strike_threshold, and run N reports Removed with a
deletion request exactly when N has reached strike_threshold (so Removed is
first emitted on run strike_threshold and then again on every later run,
not exactly once), and Striked with no deletion before that. -/
theorem c3_strike_accumulation (env : Envs) (t : Torrent) (l : Ledger)
    (hp : ¬(t.eta = 0 ∧ env.aggresive_strikes = false))
    (hsz : t.size < string_bytesize_to_bytes env.size_threshold)
    (helig : string_hms_to_ms env.time_threshold ≤ t.eta ∨
      (t.eta = 0 ∧ env.aggresive_strikes = true))
    (hl : lget l t.id = none) (k : Nat) :
    strikesOf (nthLedger env [t] (k + 1) l) t.id =
      min (k + 1) env.strike_threshold ∧
    (runResult env [t] l k).2.1.map TableContent.status =
      [if env.strike_threshold ≤ k + 1 then "Removed" else "Striked"] ∧
    (runResult env [t] l k).2.2 =
      (if env.strike_threshold ≤ k + 1 then [deleteUrl env t.id] else []) := by
  have hs0 : strikesOf l t.id = 0 := by unfold strikesOf; rw [hl]; rfl
  have hcount : ∀ j, strikesOf (nthLedger env [t] j l) t.id =
      min j env.strike_threshold := by
    intro j
    induction j with
    | zero => simpa using hs0
    | succ j ih =>
      show strikesOf (process [t] (nthLedger env [t] j l) env).1 t.id = _
      rw [process_single]
      by_cases hlt : strikesOf (nthLedger env [t] j l) t.id < env.strike_threshold
      · rw [processItem_strike_inc env _ t hp hsz helig hlt]
        show (lget (lput _ t.id _) t.id).getD 0 = _
        rw [lget_lput_self]
        show strikesOf (nthLedger env [t] j l) t.id + 1 = _
        omega
      · rw [processItem_strike_cap env _ t hp hsz helig (Nat.le_of_not_lt hlt)]
        rw [strikesOf_initOf_self, ih]
        omega
  refine ⟨hcount (k + 1), ?_⟩
  have hsk : strikesOf (nthLedger env [t] k l) t.id = min k env.strike_threshold :=
    hcount k
  by_cases hlt : strikesOf (nthLedger env [t] k l) t.id < env.strike_threshold
  · have hkT : min k env.strike_threshold = k := by omega
    have hcond : (env.strike_threshold ≤ k + 1) ↔
        (env.strike_threshold ≤ strikesOf (nthLedger env [t] k l) t.id + 1) := by
      omega
    constructor <;>
      · show _ = _
        unfold runResult
        rw [process_single, processItem_strike_inc env _ t hp hsz helig hlt]
        by_cases hR : env.strike_threshold ≤ k + 1
        · have hR2 := hcond.mp hR
          simp [mkRow, hR, hR2]
        · have hR2 : ¬(env.strike_threshold ≤
              strikesOf (nthLedger env [t] k l) t.id + 1) :=
            fun hc => hR (hcond.mpr hc)
          simp [mkRow, hR, hR2]
  · have hge := Nat.le_of_not_lt hlt
    have hR : env.strike_threshold ≤ k + 1 := by omega
    constructor <;>
      · show _ = _
        unfold runResult
        rw [process_single, processItem_strike_cap env _ t hp hsz helig hge]
        simp [mkRow, hR]

theorem c3_strike_accumulation_witness :
    strikesOf (nthLedger scenarioEnv [scenarioItem] 3 []) scenarioItem.id =
      min 3 scenarioEnv.strike_threshold ∧
    (runResult scenarioEnv [scenarioItem] [] 2).2.1.map TableContent.status =
      [if scenarioEnv.strike_threshold ≤ 3 then "Removed" else "Striked"] ∧
    (runResult scenarioEnv [scenarioItem] [] 2).2.2 =
      (if scenarioEnv.strike_threshold ≤ 3 then [deleteUrl scenarioEnv scenarioItem.id]
       else []) :=
  c3_strike_accumulation scenarioEnv scenarioItem []
    (by rintro ⟨hc, _⟩; exact absurd hc (by decide)) (by decide)
    (Or.inl (by decide)) rfl 2

/-- C6: one call of the decision engine on a snapshot with pairwise distinct
ids never deletes a ledger entry, never decreases a stored strike count and
increases each count by at most 1; afterwards every id of the snapshot has
a ledger entry, created at 0 when it was absent and also grown by at most
1 from its conceptual prior count. -/
theorem c6_ledger_invariants (env : Envs) (items : List Torrent) (l : Ledger)
    (hnd : (items.map Torrent.id).Nodup) (id : Nat) :
    (∀ s, lget l id = some s →
      ∃ s2, lget (process items l env).1 id = some s2 ∧ s ≤ s2 ∧ s2 ≤ s + 1) ∧
    (id ∈ items.map Torrent.id →
      ∃ s2, lget (process items l env).1 id = some s2 ∧
        strikesOf l id ≤ s2 ∧ s2 ≤ strikesOf l id + 1) := by
  revert hnd
  induction items generalizing l with
  | nil =>
    intro hnd
    refine ⟨fun s hs => ⟨s, hs, le_refl s, by omega⟩, fun hmem => ?_⟩
    simp at hmem
  | cons t ts ih =>
    intro hnd
    rw [List.map, List.nodup_cons] at hnd
    obtain ⟨hni, hnd2⟩ := hnd
    constructor
    · intro s hs
      by_cases hid : id = t.id
      · obtain ⟨s2, hs2, hb1, hb2⟩ := processItem_fst_lget_self env l t
        have hout : lget (process (t :: ts) l env).1 id = some s2 := by
          show lget (process ts (processItem env l t).1 env).1 id = some s2
          rw [hid, process_fst_lget_not_mem env ts _ t.id hni]
          exact hs2
        have hso : strikesOf l id = s := by unfold strikesOf; rw [hs]; rfl
        rw [← hid] at hb1 hb2
        exact ⟨s2, hout, by omega, by omega⟩
      · have hlt : lget (processItem env l t).1 id = lget l id :=
          processItem_fst_lget_ne env l t id hid
        obtain ⟨s2, h2, hb1, hb2⟩ :=
          (ih (processItem env l t).1 hnd2).1 s (by rw [hlt]; exact hs)
        exact ⟨s2, h2, hb1, hb2⟩
    · intro hmem
      rw [List.map, List.mem_cons] at hmem
      cases hmem with
      | inl hid =>
        obtain ⟨s2, hs2, hb1, hb2⟩ := processItem_fst_lget_self env l t
        have hout : lget (process (t :: ts) l env).1 id = some s2 := by
          show lget (process ts (processItem env l t).1 env).1 id = some s2
          rw [hid, process_fst_lget_not_mem env ts _ t.id hni]
          exact hs2
        rw [← hid] at hb1 hb2
        exact ⟨s2, hout, hb1, hb2⟩
      | inr hmem2 =>
        have hid : id ≠ t.id := fun hc => hni (hc ▸ hmem2)
        have hlt : lget (processItem env l t).1 id = lget l id :=
          processItem_fst_lget_ne env l t id hid
        have hsoeq : strikesOf (processItem env l t).1 id = strikesOf l id := by
          unfold strikesOf; rw [hlt]
        obtain ⟨s2, h2, hb1, hb2⟩ := (ih (processItem env l t).1 hnd2).2 hmem2
        rw [hsoeq] at hb1 hb2
        exact ⟨s2, h2, hb1, hb2⟩

theorem c6_ledger_invariants_witness :
    (∀ s, lget [(1, 2)] 1 = some s →
      ∃ s2, lget (process [scenarioItem] [(1, 2)] scenarioEnv).1 1 = some s2 ∧
        s ≤ s2 ∧ s2 ≤ s + 1) ∧
    ((1 : Nat) ∈ [scenarioItem].map Torrent.id →
      ∃ s2, lget (process [scenarioItem] [(1, 2)] scenarioEnv).1 1 = some s2 ∧
        strikesOf [(1, 2)] 1 ≤ s2 ∧ s2 ≤ strikesOf [(1, 2)] 1 + 1) :=
  c6_ledger_invariants scenarioEnv [scenarioItem] [(1, 2)] (by decide) 1
